import Mathlib

/-!
Verification development for the profiler header (profiler.hpp).

The aggregation core is shallowly embedded: `std::map<std::string,
std::vector<duration>>` becomes an association list strictly sorted by the
C++ lexicographic string order, chrono durations (a signed 64-bit tick
count) become `Int`, and the reporting/flush cycle of the background loops
becomes explicit state passing.  Each atomic critical section of the source
(one `lock_guard` scope) is one step of a trace model where interleaving
matters.
-/

namespace Profiler

/-- Lexicographic strict order on character sequences, as computed by
`std::basic_string::operator<` (character-by-character compare, shorter
prefix first). -/
def lexLt : List Char → List Char → Bool
  | _, [] => false
  | [], _ :: _ => true
  | a :: as, b :: bs =>
    if a < b then true
    else if b < a then false
    else lexLt as bs

/-- Model of `std::string` `operator<`: lexicographic comparison of the
character data.  This is the key order of `std::map<std::string, _>`. -/
def strLt (a b : String) : Bool := lexLt a.data b.data

/-- Model of `std::map<std::string, std::vector<profilerClock::duration>>`:
an association list strictly sorted by `strLt`, each value the ordered list
of duration samples (`profilerClock::duration` is a signed 64-bit tick
count, modelled as `Int`). -/
abbrev SampleMap := List (String × List Int)

/-- Model of `collectedAverageTimesMap[id].push_back(t)`: `operator[]`
inserts an entry at the key's sorted position if absent (default-constructed
empty vector), then `push_back` appends the sample. -/
def mapInsert : SampleMap → String → Int → SampleMap
  | [], id, t => [(id, [t])]
  | (k, v) :: rest, id, t =>
    if strLt id k = true then (id, [t]) :: (k, v) :: rest
    else if id = k then (k, v ++ [t]) :: rest
    else (k, v) :: mapInsert rest id t

/-- Lookup of the sample list stored for a key; `[]` when the key is absent
(no entry in the map). -/
def mapLookup : SampleMap → String → List Int
  | [], _ => []
  | (k, v) :: rest, id => if id = k then v else mapLookup rest id

/-- The accumulation `avg = 0; for t in samples avg += t` of
`averageLog` / `cumulativeLog`. -/
def sumDur (l : List Int) : Int := l.foldl (· + ·) 0

/-- Report lines produced by `AverageTimerManager::averageLog`: for each
entry, in map iteration order, the mean `(sum of samples) / size` computed
with the duration type's division (`operator/=` on the signed 64-bit tick
count, i.e. C++ truncating integer division, `Int.tdiv`).  `averageLog`
only reads the map; it does not clear it. -/
def averageLog (m : SampleMap) : List (String × Int) :=
  m.map (fun p => (p.1, Int.tdiv (sumDur p.2) ((p.2.length : Int))))

/-- Report lines produced by `AverageTimerManager::cumulativeLog`: for each
entry, in map iteration order, the exact sum of its samples.  Like
`averageLog` it does not clear the map. -/
def cumulativeLog (m : SampleMap) : List (String × Int) :=
  m.map (fun p => (p.1, sumDur p.2))

/-- Model of `AverageTimerManager::addAverageTime` (the map mutation inside
its lock). -/
def addAverageTime (m : SampleMap) (id : String) (t : Int) : SampleMap :=
  mapInsert m id t

/-- Key decoration used by `addCumulativeTime`: `id + " (cumulative)"`. -/
def cumulativeKey (id : String) : String := id ++ " (cumulative)"

/-- Model of `AverageTimerManager::addCumulativeTime` (the map mutation
inside its lock): samples are stored under the decorated key. -/
def addCumulativeTime (m : SampleMap) (id : String) (t : Int) : SampleMap :=
  mapInsert m (cumulativeKey id) t

/-- The map contents after a sequence of insert calls, starting from `m`,
where `f` is the key transformation applied by the insert operation
(identity for `addAverageTime`, `cumulativeKey` for `addCumulativeTime`). -/
def buildWith (f : String → String) (m : SampleMap) (ops : List (String × Int)) : SampleMap :=
  ops.foldl (fun acc op => mapInsert acc (f op.1) op.2) m

/-- The average sample map after a sequence of `addAverageTime (label, t)`
calls starting from the cleared (empty) map. -/
def buildAvgMap (ops : List (String × Int)) : SampleMap :=
  buildWith (fun s => s) [] ops

/-- The cumulative sample map after a sequence of
`addCumulativeTime (label, t)` calls starting from the cleared (empty)
map. -/
def buildCumMap (ops : List (String × Int)) : SampleMap :=
  buildWith cumulativeKey [] ops

/-- The durations a sequence of insert calls contributed for label `L`, in
call order. -/
def samplesOf (ops : List (String × Int)) (L : String) : List Int :=
  (ops.filter (fun p => p.1 == L)).map Prod.snd

/-- The strict sortedness `std::map` maintains on its keys. -/
def keysSorted (m : SampleMap) : Prop :=
  List.Pairwise (fun p q : String × List Int => strLt p.1 q.1 = true) m

/-- Well-formedness of a sample map as the source produces it: keys strictly
sorted and every stored vector nonempty. -/
def mapWF (m : SampleMap) : Prop :=
  keysSorted m ∧ ∀ p ∈ m, p.2 ≠ []

/-- One iteration of `averageLogLoop` after the sleep: run `averageLog()`
(report under its lock), then, under a fresh `lock_guard`, clear the map.
Result: the report lines of this cycle and the map left behind. -/
def averageLogLoopCycle (m : SampleMap) : List (String × Int) × SampleMap :=
  (averageLog m, [])

/-- One iteration of `cumulativeLogLoop` after the sleep, analogous to
`averageLogLoopCycle`. -/
def cumulativeLogLoopCycle (m : SampleMap) : List (String × Int) × SampleMap :=
  (cumulativeLog m, [])

/-- The manual one-shot report `PF_AVERAGE_TIMER_LOG()`, which calls
`AverageTimerManager::averageLog()` directly: it emits the report and
leaves the sample map untouched (nothing in `averageLog` erases entries). -/
def manualAverageReport (m : SampleMap) : List (String × Int) × SampleMap :=
  (averageLog m, m)

/-- The manual one-shot report `PF_CUMULATIVE_TIMER_LOG()`, which calls
`AverageTimerManager::cumulativeLog()` directly; like the average variant
it does not clear the map. -/
def manualCumulativeReport (m : SampleMap) : List (String × Int) × SampleMap :=
  (cumulativeLog m, m)

/-- One atomic critical section on the average sample map, as delimited by
one `lock_guard` scope of the source: an `addAverageTime` insert, the body
of `averageLog` (one lock over the whole read), or the `clear()` that
`averageLogLoop` performs under a second, separate lock acquisition after
`averageLog` has returned.  The cumulative side has the identical
structure. -/
inductive AvgAction where
  | ins : String → Int → AvgAction
  | log : AvgAction
  | clear : AvgAction
deriving DecidableEq

/-- Runs a serialized sequence of critical sections on the average sample
map.  Any concurrent execution of caller threads and the logging loop
produces some such sequence, because the mutex serializes the critical
sections.  For every `log`, the generation it drained (the map contents its
lock protected) is recorded. -/
def runAvg (m : SampleMap) (gens : List SampleMap) : List AvgAction → SampleMap × List SampleMap
  | [] => (m, gens)
  | AvgAction.ins id t :: rest => runAvg (mapInsert m id t) gens rest
  | AvgAction.log :: rest => runAvg m (gens ++ [m]) rest
  | AvgAction.clear :: rest => runAvg [] gens rest

/-- A block of insert critical sections, one per `addAverageTime` call. -/
def insActs (ops : List (String × Int)) : List AvgAction :=
  ops.map (fun p => AvgAction.ins p.1 p.2)

/-- The static state of `AverageTimerManager` relevant to starting the
logging threads, plus a count of background loops actually running of each
kind (each successful `std::thread(...)` + `detach()` adds one). -/
structure SchedulerState where
  profilerStartTime : Int
  startTimeSet : Bool
  loggingEnabled : Bool
  runningAverageLoops : Nat
  runningCumulativeLoops : Nat
deriving DecidableEq

/-- The state after the static initializers of the source: `startTimeSet =
false`, `loggingEnabled = false`, no loop running. -/
def initialSchedulerState : SchedulerState :=
  { profilerStartTime := 0, startTimeSet := false, loggingEnabled := false,
    runningAverageLoops := 0, runningCumulativeLoops := 0 }

/-- Model of `AverageTimerManager::setStartTime`. -/
def setStartTime (s : SchedulerState) (t : Int) : SchedulerState :=
  { s with profilerStartTime := t, startTimeSet := true }

/-- Model of `AverageTimerManager::startAverageLoggingThread` in the case
where thread creation succeeds.  A successfully constructed `std::thread`
with a thread function is always `joinable()`, so the `detach()` branch
runs; note the source then sets `startTimeSet = true` — `loggingEnabled` is
never written anywhere in the source. -/
def startAverageLoggingThread (s : SchedulerState) (nowv : Int) : SchedulerState :=
  let s1 := if !s.startTimeSet then setStartTime s nowv else s
  if !s1.loggingEnabled then
    { s1 with runningAverageLoops := s1.runningAverageLoops + 1, startTimeSet := true }
  else s1

/-- Model of `AverageTimerManager::startCumulativeLoggingThread` in the
case where thread creation succeeds; same structure as the average
variant. -/
def startCumulativeLoggingThread (s : SchedulerState) (nowv : Int) : SchedulerState :=
  let s1 := if !s.startTimeSet then setStartTime s nowv else s
  if !s1.loggingEnabled then
    { s1 with runningCumulativeLoops := s1.runningCumulativeLoops + 1, startTimeSet := true }
  else s1

/-- Model of `startAverageLoggingThread` with a fallible platform: per the
C++ standard, the `std::thread` constructor throws `std::system_error` when
the thread cannot be started (e.g. resource exhaustion).  The source wraps
the construction in no try/catch, so that exception propagates out of the
enable call (modelled as `Except.error`); the `joinable()` test and its
`cerr` message are only reached after a successful construction, where
`joinable()` is always `true`, so that branch is dead code. -/
def startAverageLoggingThreadFallible (s : SchedulerState) (nowv : Int)
    (spawnOk : Bool) : Except String SchedulerState :=
  let s1 := if !s.startTimeSet then setStartTime s nowv else s
  if !s1.loggingEnabled then
    if spawnOk then
      Except.ok { s1 with runningAverageLoops := s1.runningAverageLoops + 1, startTimeSet := true }
    else
      Except.error "system_error: thread creation failed"
  else Except.ok s1

/-- Model of `startCumulativeLoggingThread` with a fallible platform, as in
`startAverageLoggingThreadFallible`. -/
def startCumulativeLoggingThreadFallible (s : SchedulerState) (nowv : Int)
    (spawnOk : Bool) : Except String SchedulerState :=
  let s1 := if !s.startTimeSet then setStartTime s nowv else s
  if !s1.loggingEnabled then
    if spawnOk then
      Except.ok { s1 with runningCumulativeLoops := s1.runningCumulativeLoops + 1, startTimeSet := true }
    else
      Except.error "system_error: thread creation failed"
  else Except.ok s1

/-- State of the interaction between a logging loop's sleep and the mutable
global interval (`defaultAverageTimerSleepDuration` /
`defaultCumulativeTimerSleepDuration`): the interval variable's current
value, the duration already passed by value to an in-flight
`sleep_for` (if one is pending), and the durations actually slept so
far. -/
structure SleepState where
  interval : Int
  pending : Option Int
  slept : List Int
deriving DecidableEq

/-- Events of the sleep model: the loop calling
`sleep_for(defaultAverageTimerSleepDuration)` reads the global exactly once
at the call (`beginSleep` captures it by value); a caller may assign the
global at any time (`PF_SET_AVERAGE_TIMER_SLEEP_DURATION`, `setInterval`);
`endSleep` is `sleep_for` returning after the captured duration. -/
inductive SleepEvent where
  | beginSleep : SleepEvent
  | setInterval : Int → SleepEvent
  | endSleep : SleepEvent
deriving DecidableEq

/-- One step of the sleep model. -/
def sleepStep (s : SleepState) : SleepEvent → SleepState
  | SleepEvent.beginSleep => { s with pending := some s.interval }
  | SleepEvent.setInterval v => { s with interval := v }
  | SleepEvent.endSleep =>
    match s.pending with
    | some d => { s with pending := none, slept := s.slept ++ [d] }
    | none => s

/-- Executes a sequence of sleep-model events. -/
def sleepRun (s : SleepState) (es : List SleepEvent) : SleepState :=
  es.foldl sleepStep s

/-- The `timeSuffixes` table of the source: `std::map<long long,
std::string_view>` from a nanosecond count to a unit suffix, listed here in
the ascending key order the map maintains. -/
def timeSuffixes : List (Int × String) :=
  [(1, "ns"), (1000, "us"), (1000000, "ms"), (1000000000, "s"),
   (60000000000, "min"), (3600000000000, "h"), (86400000000000, "d")]

/-- The conversion of the `double` value `(1/scale) * 1000000000LL` to the
map's `long long` key type: C++ floating-to-integral conversion truncates
toward zero (`Int.tdiv` of the exact rational).  The `double` arithmetic
itself is modelled by exact rational arithmetic. -/
def doubleToLL (q : ℚ) : Int := Int.tdiv q.num (q.den : Int)

/-- Model of `getUnitSuffix`: look the computed key up in `timeSuffixes`
(`std::map::find` is exact-match) and fall back to the placeholder `"?"`
when no entry matches. -/
def getUnitSuffix (scale : ℚ) : String :=
  match timeSuffixes.find? (fun p => p.1 == doubleToLL ((1 / scale) * 1000000000)) with
  | some p => p.2
  | none => "?"

lemma lexLt_irrefl : ∀ l : List Char, lexLt l l = false := by
  intro l
  induction l with
  | nil => rfl
  | cons a as ih => simp [lexLt, lt_irrefl, ih]

lemma lexLt_trans : ∀ {a b c : List Char},
    lexLt a b = true → lexLt b c = true → lexLt a c = true := by
  intro a
  induction a with
  | nil =>
    intro b c hab hbc
    cases b with
    | nil => simp [lexLt] at hab
    | cons y ys =>
      cases c with
      | nil => simp [lexLt] at hbc
      | cons z zs => simp [lexLt]
  | cons x xs ih =>
    intro b c hab hbc
    cases b with
    | nil => simp [lexLt] at hab
    | cons y ys =>
      cases c with
      | nil => simp [lexLt] at hbc
      | cons z zs =>
        simp only [lexLt] at hab hbc ⊢
        by_cases hxy : x < y
        · by_cases hyz : y < z
          · rw [if_pos (lt_trans hxy hyz)]
          · by_cases hzy : z < y
            · rw [if_neg hyz, if_pos hzy] at hbc
              exact absurd hbc (by simp)
            · have hyze : y = z := le_antisymm (not_lt.mp hzy) (not_lt.mp hyz)
              subst hyze
              rw [if_pos hxy]
        · by_cases hyx : y < x
          · rw [if_neg hxy, if_pos hyx] at hab
            exact absurd hab (by simp)
          · have hxye : x = y := le_antisymm (not_lt.mp hyx) (not_lt.mp hxy)
            subst hxye
            rw [if_neg hxy, if_neg hxy] at hab
            by_cases hxz : x < z
            · rw [if_pos hxz]
            · by_cases hzx : z < x
              · rw [if_neg hxz, if_pos hzx] at hbc
                exact absurd hbc (by simp)
              · have hxze : x = z := le_antisymm (not_lt.mp hzx) (not_lt.mp hxz)
                subst hxze
                rw [if_neg hxz, if_neg hxz] at hbc ⊢
                exact ih hab hbc

lemma lexLt_antisymm : ∀ {a b : List Char},
    lexLt a b = false → lexLt b a = false → a = b := by
  intro a
  induction a with
  | nil =>
    intro b hab _
    cases b with
    | nil => rfl
    | cons y ys => simp [lexLt] at hab
  | cons x xs ih =>
    intro b hab hba
    cases b with
    | nil => simp [lexLt] at hba
    | cons y ys =>
      simp only [lexLt] at hab hba
      by_cases hxy : x < y
      · rw [if_pos hxy] at hab
        exact absurd hab (by simp)
      · by_cases hyx : y < x
        · rw [if_pos hyx] at hba
          exact absurd hba (by simp)
        · have hxye : x = y := le_antisymm (not_lt.mp hyx) (not_lt.mp hxy)
          subst hxye
          rw [if_neg hxy, if_neg hxy] at hab
          rw [if_neg hxy, if_neg hxy] at hba
          rw [ih hab hba]

lemma strLt_irrefl (a : String) : strLt a a = false := lexLt_irrefl a.data

lemma strLt_trans {a b c : String} (h1 : strLt a b = true) (h2 : strLt b c = true) :
    strLt a c = true := lexLt_trans h1 h2

lemma strLt_antisymm {a b : String} (h1 : strLt a b = false) (h2 : strLt b a = false) :
    a = b := String.ext (lexLt_antisymm h1 h2)

lemma strLt_ne {a b : String} (h : strLt a b = true) : a ≠ b := by
  rintro rfl
  rw [strLt_irrefl] at h
  exact Bool.false_ne_true h

lemma strLt_of_not_lt_of_ne {a b : String} (hne : a ≠ b) (h : strLt a b = false) :
    strLt b a = true := by
  cases h2 : strLt b a with
  | true => rfl
  | false => exact absurd (strLt_antisymm h h2) hne

lemma mapWF_nil : mapWF [] := ⟨List.Pairwise.nil, by simp⟩

lemma mapLookup_eq_nil {m : SampleMap} {id : String} (h : ∀ p ∈ m, id ≠ p.1) :
    mapLookup m id = [] := by
  induction m with
  | nil => rfl
  | cons q rest ih =>
    obtain ⟨k, v⟩ := q
    have hk : id ≠ k := h (k, v) (List.mem_cons_self _ _)
    simp only [mapLookup, if_neg hk]
    exact ih (fun p hp => h p (List.mem_cons_of_mem _ hp))

lemma mapLookup_eq_nil_of_lt {k : String} {v : List Int} {rest : SampleMap} {id : String}
    (h : keysSorted ((k, v) :: rest)) (hlt : strLt id k = true) :
    mapLookup ((k, v) :: rest) id = [] := by
  apply mapLookup_eq_nil
  intro p hp
  rcases List.mem_cons.mp hp with he | hp2
  · rw [he]
    exact strLt_ne hlt
  · have hk := (List.pairwise_cons.mp h).1 p hp2
    exact strLt_ne (strLt_trans hlt hk)

lemma mapLookup_mapInsert {m : SampleMap} (hs : keysSorted m) (id t id') :
    mapLookup (mapInsert m id t) id' =
      if id' = id then mapLookup m id' ++ [t] else mapLookup m id' := by
  induction m with
  | nil =>
    by_cases h : id' = id <;> simp [mapInsert, mapLookup, h]
  | cons q rest ih =>
    obtain ⟨k, v⟩ := q
    have hs' : keysSorted rest := (List.pairwise_cons.mp hs).2
    by_cases h1 : strLt id k = true
    · rw [show mapInsert ((k, v) :: rest) id t = (id, [t]) :: (k, v) :: rest from by
        simp [mapInsert, h1]]
      by_cases h2 : id' = id
      · subst h2
        rw [mapLookup_eq_nil_of_lt hs h1]
        simp [mapLookup]
      · simp [mapLookup, h2]
    · by_cases h2 : id = k
      · subst h2
        rw [show mapInsert ((id, v) :: rest) id t = (id, v ++ [t]) :: rest from by
          simp [mapInsert, h1]]
        by_cases h3 : id' = id
        · subst h3
          simp [mapLookup]
        · simp [mapLookup, h3]
      · rw [show mapInsert ((k, v) :: rest) id t = (k, v) :: mapInsert rest id t from by
          simp [mapInsert, h1, h2]]
        by_cases h3 : id' = k
        · subst h3
          have h4 : id' ≠ id := fun he => h2 he.symm
          simp [mapLookup, h4]
        · simp only [mapLookup, if_neg h3]
          exact ih hs'

lemma mapInsert_key_mem {m : SampleMap} {id : String} {t : Int} :
    ∀ p ∈ mapInsert m id t, p.1 = id ∨ ∃ q ∈ m, p.1 = q.1 := by
  induction m with
  | nil =>
    intro p hp
    simp [mapInsert] at hp
    left
    simp [hp]
  | cons q rest ih =>
    obtain ⟨k, v⟩ := q
    intro p hp
    by_cases h1 : strLt id k = true
    · rw [show mapInsert ((k, v) :: rest) id t = (id, [t]) :: (k, v) :: rest from by
        simp [mapInsert, h1]] at hp
      rcases List.mem_cons.mp hp with he | hp2
      · left
        rw [he]
      · right
        exact ⟨p, hp2, rfl⟩
    · by_cases h2 : id = k
      · subst h2
        rw [show mapInsert ((id, v) :: rest) id t = (id, v ++ [t]) :: rest from by
          simp [mapInsert, h1]] at hp
        rcases List.mem_cons.mp hp with he | hp2
        · left
          rw [he]
        · right
          exact ⟨p, List.mem_cons_of_mem _ hp2, rfl⟩
      · rw [show mapInsert ((k, v) :: rest) id t = (k, v) :: mapInsert rest id t from by
          simp [mapInsert, h1, h2]] at hp
        rcases List.mem_cons.mp hp with he | hp2
        · right
          exact ⟨(k, v), List.mem_cons_self _ _, by rw [he]⟩
        · rcases ih p hp2 with hl | ⟨q2, hq2, he2⟩
          · left
            exact hl
          · right
            exact ⟨q2, List.mem_cons_of_mem _ hq2, he2⟩

lemma keysSorted_mapInsert {m : SampleMap} {id : String} {t : Int} (hs : keysSorted m) :
    keysSorted (mapInsert m id t) := by
  induction m with
  | nil => simp [mapInsert, keysSorted]
  | cons q rest ih =>
    obtain ⟨k, v⟩ := q
    obtain ⟨hk, hs'⟩ := List.pairwise_cons.mp hs
    by_cases h1 : strLt id k = true
    · rw [show mapInsert ((k, v) :: rest) id t = (id, [t]) :: (k, v) :: rest from by
        simp [mapInsert, h1]]
      refine List.pairwise_cons.mpr ⟨?_, hs⟩
      intro q hq
      rcases List.mem_cons.mp hq with he | hq2
      · rw [he]
        exact h1
      · exact strLt_trans h1 (hk q hq2)
    · by_cases h2 : id = k
      · subst h2
        rw [show mapInsert ((id, v) :: rest) id t = (id, v ++ [t]) :: rest from by
          simp [mapInsert, h1]]
        exact List.pairwise_cons.mpr ⟨hk, hs'⟩
      · rw [show mapInsert ((k, v) :: rest) id t = (k, v) :: mapInsert rest id t from by
          simp [mapInsert, h1, h2]]
        refine List.pairwise_cons.mpr ⟨?_, ih hs'⟩
        intro q hq
        rcases mapInsert_key_mem q hq with he | ⟨q2, hq2, he2⟩
        · rw [he]
          exact strLt_of_not_lt_of_ne h2 (by
            cases h3 : strLt id k with
            | true => exact absurd h3 h1
            | false => rfl)
        · rw [he2]
          exact hk q2 hq2

lemma vals_ne_nil_mapInsert {m : SampleMap} {id : String} {t : Int}
    (h : ∀ p ∈ m, p.2 ≠ []) : ∀ p ∈ mapInsert m id t, p.2 ≠ [] := by
  induction m with
  | nil =>
    intro p hp
    simp [mapInsert] at hp
    rw [hp]
    simp
  | cons q rest ih =>
    obtain ⟨k, v⟩ := q
    intro p hp
    by_cases h1 : strLt id k = true
    · rw [show mapInsert ((k, v) :: rest) id t = (id, [t]) :: (k, v) :: rest from by
        simp [mapInsert, h1]] at hp
      rcases List.mem_cons.mp hp with he | hp2
      · rw [he]
        simp
      · exact h p hp2
    · by_cases h2 : id = k
      · subst h2
        rw [show mapInsert ((id, v) :: rest) id t = (id, v ++ [t]) :: rest from by
          simp [mapInsert, h1]] at hp
        rcases List.mem_cons.mp hp with he | hp2
        · rw [he]
          simp
        · exact h p (List.mem_cons_of_mem _ hp2)
      · rw [show mapInsert ((k, v) :: rest) id t = (k, v) :: mapInsert rest id t from by
          simp [mapInsert, h1, h2]] at hp
        rcases List.mem_cons.mp hp with he | hp2
        · rw [he]
          exact h (k, v) (List.mem_cons_self _ _)
        · exact ih (fun p2 hp2b => h p2 (List.mem_cons_of_mem _ hp2b)) p hp2

lemma mapWF_mapInsert {m : SampleMap} {id : String} {t : Int} (h : mapWF m) :
    mapWF (mapInsert m id t) :=
  ⟨keysSorted_mapInsert h.1, vals_ne_nil_mapInsert h.2⟩

lemma buildWith_cons (f : String → String) (m : SampleMap) (op : String × Int)
    (ops : List (String × Int)) :
    buildWith f m (op :: ops) = buildWith f (mapInsert m (f op.1) op.2) ops := rfl

lemma mapWF_buildWith (f : String → String) :
    ∀ (ops : List (String × Int)) (m : SampleMap), mapWF m → mapWF (buildWith f m ops) := by
  intro ops
  induction ops with
  | nil => intro m h; exact h
  | cons op ops ih =>
    intro m h
    rw [buildWith_cons]
    exact ih _ (mapWF_mapInsert h)

lemma samplesOf_cons (op : String × Int) (ops : List (String × Int)) (L : String) :
    samplesOf (op :: ops) L =
      if op.1 = L then op.2 :: samplesOf ops L else samplesOf ops L := by
  by_cases h : op.1 = L
  · simp [samplesOf, List.filter, h]
  · have hb : (op.1 == L) = false := beq_eq_false_iff_ne.mpr h
    simp [samplesOf, List.filter, h, hb]

lemma buildWith_mapLookup {f : String → String} (hf : Function.Injective f) :
    ∀ (ops : List (String × Int)) (m : SampleMap) (L : String), mapWF m →
      mapLookup (buildWith f m ops) (f L) = mapLookup m (f L) ++ samplesOf ops L := by
  intro ops
  induction ops with
  | nil =>
    intro m L _
    simp [buildWith, samplesOf]
  | cons op ops ih =>
    intro m L h
    rw [buildWith_cons, ih _ _ (mapWF_mapInsert h), mapLookup_mapInsert h.1, samplesOf_cons]
    by_cases hc : op.1 = L
    · rw [if_pos (congrArg f hc.symm), if_pos hc]
      simp
    · rw [if_neg (fun he => hc (hf he).symm), if_neg hc]

lemma cumulativeKey_injective : Function.Injective cumulativeKey := by
  intro a b h
  simp only [cumulativeKey] at h
  apply String.ext
  have h2 := congrArg String.data h
  rw [String.data_append, String.data_append] at h2
  exact (List.append_left_inj _).mp h2

lemma buildAvgMap_mapLookup (ops : List (String × Int)) (L : String) :
    mapLookup (buildAvgMap ops) L = samplesOf ops L := by
  have h := buildWith_mapLookup (f := fun s => s) (fun a b hab => hab) ops [] L mapWF_nil
  simpa [buildAvgMap, mapLookup] using h

lemma buildCumMap_mapLookup (ops : List (String × Int)) (L : String) :
    mapLookup (buildCumMap ops) (cumulativeKey L) = samplesOf ops L := by
  have h := buildWith_mapLookup cumulativeKey_injective ops [] L mapWF_nil
  simpa [buildCumMap, mapLookup] using h

lemma mem_iff_mapLookup {m : SampleMap} (h : mapWF m) (L : String) (v : List Int) :
    (L, v) ∈ m ↔ (mapLookup m L = v ∧ v ≠ []) := by
  induction m with
  | nil =>
    constructor
    · rintro ⟨⟩
    · rintro ⟨h1, h2⟩
      exact absurd h1.symm h2
  | cons q rest ih =>
    obtain ⟨k, w⟩ := q
    obtain ⟨hks, hvs⟩ := h
    obtain ⟨hk, hks'⟩ := List.pairwise_cons.mp hks
    have ih' := ih ⟨hks', fun p hp => hvs p (List.mem_cons_of_mem _ hp)⟩
    by_cases hLk : L = k
    · subst hLk
      simp only [mapLookup, if_pos rfl]
      constructor
      · intro hm
        rcases List.mem_cons.mp hm with he | hm2
        · rw [Prod.mk.injEq] at he
          exact ⟨he.2.symm, he.2 ▸ hvs (L, w) (List.mem_cons_self _ _)⟩
        · exact absurd (hk (L, v) hm2) (by rw [strLt_irrefl]; simp)
      · rintro ⟨h1, _⟩
        rw [← h1]
        exact List.mem_cons_self _ _
    · simp only [mapLookup, if_neg hLk]
      constructor
      · intro hm
        rcases List.mem_cons.mp hm with he | hm2
        · rw [Prod.mk.injEq] at he
          exact absurd he.1 hLk
        · exact ih'.mp hm2
      · intro h2
        exact List.mem_cons_of_mem _ (ih'.mpr h2)

lemma mem_averageLog {m : SampleMap} {L : String} {x : Int} :
    (L, x) ∈ averageLog m ↔
      ∃ v, (L, v) ∈ m ∧ x = Int.tdiv (sumDur v) ((v.length : Int)) := by
  constructor
  · intro hmem
    rw [averageLog, List.mem_map] at hmem
    obtain ⟨p, hp, he⟩ := hmem
    obtain ⟨k, v⟩ := p
    rw [Prod.mk.injEq] at he
    obtain ⟨he1, he2⟩ := he
    subst he1
    exact ⟨v, hp, he2.symm⟩
  · rintro ⟨v, hv, rfl⟩
    rw [averageLog, List.mem_map]
    exact ⟨(L, v), hv, rfl⟩

lemma mem_cumulativeLog {m : SampleMap} {L : String} {x : Int} :
    (L, x) ∈ cumulativeLog m ↔ ∃ v, (L, v) ∈ m ∧ x = sumDur v := by
  constructor
  · intro hmem
    rw [cumulativeLog, List.mem_map] at hmem
    obtain ⟨p, hp, he⟩ := hmem
    obtain ⟨k, v⟩ := p
    rw [Prod.mk.injEq] at he
    obtain ⟨he1, he2⟩ := he
    subst he1
    exact ⟨v, hp, he2.symm⟩
  · rintro ⟨v, hv, rfl⟩
    rw [cumulativeLog, List.mem_map]
    exact ⟨(L, v), hv, rfl⟩

lemma mapWF_buildAvgMap (ops : List (String × Int)) : mapWF (buildAvgMap ops) :=
  mapWF_buildWith _ ops [] mapWF_nil

lemma mapWF_buildCumMap (ops : List (String × Int)) : mapWF (buildCumMap ops) :=
  mapWF_buildWith _ ops [] mapWF_nil

lemma averageLog_keys (m : SampleMap) :
    (averageLog m).map Prod.fst = m.map Prod.fst := by
  rw [averageLog, List.map_map]
  rfl

lemma cumulativeLog_keys (m : SampleMap) :
    (cumulativeLog m).map Prod.fst = m.map Prod.fst := by
  rw [cumulativeLog, List.map_map]
  rfl

/-- C1: for every label L that received at least one sample via
`addAverageTime` since the sample map was last cleared, `averageLog`
reports for L the mean of those durations computed as sum divided by count
with the duration type's truncating division; a label with no samples does
not appear in the report. -/
theorem averageLog_reports_truncated_mean (ops : List (String × Int)) (L : String) :
    (samplesOf ops L ≠ [] →
      (L, Int.tdiv (sumDur (samplesOf ops L)) (((samplesOf ops L).length : Int)))
        ∈ averageLog (buildAvgMap ops))
    ∧ (samplesOf ops L = [] → ∀ x : Int, (L, x) ∉ averageLog (buildAvgMap ops)) := by
  constructor
  · intro h
    have hmem : (L, samplesOf ops L) ∈ buildAvgMap ops :=
      (mem_iff_mapLookup (mapWF_buildAvgMap ops) L _).mpr ⟨buildAvgMap_mapLookup ops L, h⟩
    exact mem_averageLog.mpr ⟨samplesOf ops L, hmem, rfl⟩
  · intro h x hx
    obtain ⟨v, hv, _⟩ := mem_averageLog.mp hx
    have h2 := (mem_iff_mapLookup (mapWF_buildAvgMap ops) L v).mp hv
    rw [buildAvgMap_mapLookup ops L, h] at h2
    exact h2.2 h2.1.symm

/-- Witness for C1: samples 4 and 5 for label "a" yield the reported mean
`Int.tdiv 9 2 = 4`. -/
theorem averageLog_reports_truncated_mean_witness :
    samplesOf [("a", 4), ("a", 5)] "a" ≠ [] ∧
    ("a", Int.tdiv (sumDur (samplesOf [("a", 4), ("a", 5)] "a"))
        (((samplesOf [("a", 4), ("a", 5)] "a").length : Int)))
      ∈ averageLog (buildAvgMap [("a", 4), ("a", 5)]) :=
  ⟨by decide, (averageLog_reports_truncated_mean [("a", 4), ("a", 5)] "a").1 (by decide)⟩

/-- C6: for every label L, `cumulativeLog` reports the exact sum of the
durations added for L via `addCumulativeTime` since the last clear, keyed
by the decorated label; a label with no samples gets no line, and after a
loop cycle's clear the subsequent report omits L (it is empty). -/
theorem cumulativeLog_reports_exact_sum (ops : List (String × Int)) (L : String) :
    (samplesOf ops L ≠ [] →
      (cumulativeKey L, sumDur (samplesOf ops L)) ∈ cumulativeLog (buildCumMap ops))
    ∧ (samplesOf ops L = [] →
      ∀ x : Int, (cumulativeKey L, x) ∉ cumulativeLog (buildCumMap ops))
    ∧ cumulativeLog ((cumulativeLogLoopCycle (buildCumMap ops)).2) = [] := by
  refine ⟨?_, ?_, rfl⟩
  · intro h
    have hmem : (cumulativeKey L, samplesOf ops L) ∈ buildCumMap ops :=
      (mem_iff_mapLookup (mapWF_buildCumMap ops) _ _).mpr ⟨buildCumMap_mapLookup ops L, h⟩
    exact mem_cumulativeLog.mpr ⟨samplesOf ops L, hmem, rfl⟩
  · intro h x hx
    obtain ⟨v, hv, _⟩ := mem_cumulativeLog.mp hx
    have h2 := (mem_iff_mapLookup (mapWF_buildCumMap ops) _ v).mp hv
    rw [buildCumMap_mapLookup ops L, h] at h2
    exact h2.2 h2.1.symm

/-- Witness for C6: samples 4 and 5 for label "b" yield the reported sum 9
under key "b (cumulative)". -/
theorem cumulativeLog_reports_exact_sum_witness :
    samplesOf [("b", 4), ("b", 5)] "b" ≠ [] ∧
    (cumulativeKey "b", sumDur (samplesOf [("b", 4), ("b", 5)] "b"))
      ∈ cumulativeLog (buildCumMap [("b", 4), ("b", 5)]) :=
  ⟨by decide, (cumulativeLog_reports_exact_sum [("b", 4), ("b", 5)] "b").1 (by decide)⟩

/-- C7: every entry of an average sample map built by `addAverageTime`
inserts from the cleared map holds at least one sample (entries are only
created by an insert that appends, and `clear()` removes whole entries), so
the divisor `p.second.size()` in `averageLog` is never zero. -/
theorem averageLog_divisor_nonzero (ops : List (String × Int)) (p : String × List Int)
    (hp : p ∈ buildAvgMap ops) :
    p.2 ≠ [] ∧ ((p.2.length : Int)) ≠ 0 := by
  have h2 := (mapWF_buildAvgMap ops).2 p hp
  refine ⟨h2, ?_⟩
  intro hz
  apply h2
  have hzn : p.2.length = 0 := by exact_mod_cast hz
  exact List.length_eq_zero.mp hzn

/-- Witness for C7 at a concrete map. -/
theorem averageLog_divisor_nonzero_witness :
    ("a", [(1 : Int)]) ∈ buildAvgMap [("a", 1)] ∧
    (((("a", [(1 : Int)]) : String × List Int).2.length : Int)) ≠ 0 :=
  ⟨by decide, (averageLog_divisor_nonzero [("a", 1)] ("a", [1]) (by decide)).2⟩

/-- C10: within one report cycle the per-label lines are emitted in
strictly increasing lexicographic order of the stored label string, in both
modes, because the sample maps iterate in `std::map` key order. -/
theorem report_labels_strictly_sorted (opsA opsC : List (String × Int)) :
    List.Pairwise (fun a b : String => strLt a b = true)
      ((averageLog (buildAvgMap opsA)).map Prod.fst)
    ∧ List.Pairwise (fun a b : String => strLt a b = true)
      ((cumulativeLog (buildCumMap opsC)).map Prod.fst) := by
  constructor
  · rw [averageLog_keys]
    exact List.pairwise_map.mpr (mapWF_buildAvgMap opsA).1
  · rw [cumulativeLog_keys]
    exact List.pairwise_map.mpr (mapWF_buildCumMap opsC).1

lemma runAvg_insActs (ops : List (String × Int)) :
    ∀ (m : SampleMap) (gens : List SampleMap) (rest : List AvgAction),
      runAvg m gens (insActs ops ++ rest)
        = runAvg (buildWith (fun s => s) m ops) gens rest := by
  induction ops with
  | nil =>
    intro m gens rest
    rfl
  | cons op ops ih =>
    intro m gens rest
    show runAvg (mapInsert m op.1 op.2) gens (insActs ops ++ rest)
      = runAvg (buildWith (fun s => s) (mapInsert m op.1 op.2) ops) gens rest
    exact ih _ _ _

/-- C2 counterexample: one loop cycle — `averageLog` (`log`), then the
`clear` done under a second, separate `lock_guard` — with an
`addAverageTime "a" 7` interleaved in the unlocked window between the two.
The only drained generation is `[("a", [5])]`, which does not contain the
sample 7, and the post-drain map is empty, so that insert landed in
neither the pre-drain nor the post-drain generation: it is lost. -/
theorem drain_clear_not_atomic_cex :
    runAvg [] [] [AvgAction.ins "a" 5, AvgAction.log, AvgAction.ins "a" 7, AvgAction.clear]
      = ([], [[("a", [5])]])
    ∧ (7 : Int) ∉ mapLookup [("a", [5])] "a" := by
  constructor
  · decide
  · decide

/-- C2 amended: each critical section (insert, the report's read, the
clear) is individually atomic under the mutex, but the loop does not hold
the lock across the report and the clear.  For every interleaving in which
no insert falls into the report-to-clear window, all samples inserted
before the report land wholly in the drained generation and all samples
inserted after the clear land wholly in the post-drain map; an insert in
the window is lost. -/
theorem drain_generations_without_midcycle_insert (pre post : List (String × Int)) :
    runAvg [] [] (insActs pre ++ [AvgAction.log, AvgAction.clear] ++ insActs post)
      = (buildAvgMap post, [buildAvgMap pre]) := by
  rw [List.append_assoc, runAvg_insActs]
  show runAvg [] [buildWith (fun s => s) [] pre] (insActs post)
    = (buildAvgMap post, [buildAvgMap pre])
  rw [← List.append_nil (insActs post), runAvg_insActs]
  rfl

/-- C3 counterexample: with one sample for "a", the manual one-shot report
(`PF_AVERAGE_TIMER_LOG()` = `averageLog()`) leaves the map unchanged, so a
second manual drain-and-report cycle with no intervening inserts again
returns the nonempty report `[("a", 5)]` instead of an empty one. -/
theorem manual_report_does_not_clear_cex :
    (manualAverageReport (buildAvgMap [("a", 5)])).2 = buildAvgMap [("a", 5)]
    ∧ (manualAverageReport ((manualAverageReport (buildAvgMap [("a", 5)])).2)).1
        = [("a", 5)]
    ∧ [(("a" : String), (5 : Int))] ≠ [] := by
  refine ⟨rfl, by decide, by decide⟩

/-- C3 amended: the loop-driven drain cycle (report, then clear) is
idempotent-clearing in both modes — a second cycle with no intervening
inserts reports nothing — but the manual one-shot reports do not clear the
sample maps at all, so a second manual report repeats the same lines. -/
theorem loop_cycle_idempotent_clearing (mA mC : SampleMap) :
    (averageLogLoopCycle (averageLogLoopCycle mA).2).1 = []
    ∧ (cumulativeLogLoopCycle (cumulativeLogLoopCycle mC).2).1 = []
    ∧ (manualAverageReport mA).2 = mA
    ∧ (manualCumulativeReport mC).2 = mC :=
  ⟨rfl, rfl, rfl, rfl⟩

/-- C4 (code bug): a second call to `startAverageLoggingThread` while the
first loop is running starts a second average loop, because the
`if(!loggingEnabled)` guard tests a flag the source never sets to `true` —
the success branch assigns `startTimeSet = true` instead.  The cumulative
variant has the same defect. -/
theorem second_enable_starts_second_loop :
    (startAverageLoggingThread
        (startAverageLoggingThread initialSchedulerState 100) 200).runningAverageLoops = 2
    ∧ (startAverageLoggingThread
        (startAverageLoggingThread initialSchedulerState 100) 200).loggingEnabled = false
    ∧ (startCumulativeLoggingThread
        (startCumulativeLoggingThread initialSchedulerState 100) 200).runningCumulativeLoops = 2 := by
  decide

/-- C5 (code bug): when the platform refuses to start the background
thread, the enable call does not log the failure and leave the loop
disabled — the `std::system_error` thrown by the `std::thread` constructor
propagates out of the enable call, since the source has no try/catch
around it (and its `joinable()`/`cerr` fallback is unreachable dead
code). -/
theorem enable_propagates_thread_creation_failure :
    startAverageLoggingThreadFallible initialSchedulerState 100 false
      = Except.error "system_error: thread creation failed"
    ∧ startCumulativeLoggingThreadFallible initialSchedulerState 100 false
      = Except.error "system_error: thread creation failed" :=
  ⟨rfl, rfl⟩

lemma sleepRun_setIntervals (ws : List Int) :
    ∀ s : SleepState,
      (sleepRun s (ws.map SleepEvent.setInterval)).pending = s.pending
      ∧ (sleepRun s (ws.map SleepEvent.setInterval)).slept = s.slept := by
  induction ws with
  | nil =>
    intro s
    exact ⟨rfl, rfl⟩
  | cons w ws ih =>
    intro s
    exact ih { s with interval := w }

lemma sleep_once (u : SleepState) :
    (sleepRun u [SleepEvent.beginSleep, SleepEvent.endSleep]).slept
      = u.slept ++ [u.interval] := rfl

lemma sleepStep_endSleep_slept (u : SleepState) (d : Int) (h : u.pending = some d) :
    (sleepStep u SleepEvent.endSleep).slept = u.slept ++ [d] := by
  simp [sleepStep, h]

/-- C8: an assignment to the sleep-interval global issued after a loop
iteration has called `sleep_for` (which captured the interval by value)
does not change the duration of that pending sleep — it still sleeps the
value read at the start of the iteration — while the next iteration's
sleep uses the interval value current at its own read. -/
theorem interval_update_not_retroactive (s : SleepState) (ws : List Int) :
    (sleepRun s (SleepEvent.beginSleep ::
        (ws.map SleepEvent.setInterval ++ [SleepEvent.endSleep]))).slept
      = s.slept ++ [s.interval]
    ∧ (sleepRun (sleepRun s (SleepEvent.beginSleep ::
          (ws.map SleepEvent.setInterval ++ [SleepEvent.endSleep])))
        [SleepEvent.beginSleep, SleepEvent.endSleep]).slept
      = s.slept ++ [s.interval,
          (sleepRun s (SleepEvent.beginSleep ::
            (ws.map SleepEvent.setInterval ++ [SleepEvent.endSleep]))).interval] := by
  have hsplit :
      sleepRun s (SleepEvent.beginSleep ::
          (ws.map SleepEvent.setInterval ++ [SleepEvent.endSleep]))
        = sleepStep (sleepRun (sleepStep s SleepEvent.beginSleep)
            (ws.map SleepEvent.setInterval)) SleepEvent.endSleep := by
    show sleepRun (sleepStep s SleepEvent.beginSleep)
        (ws.map SleepEvent.setInterval ++ [SleepEvent.endSleep]) = _
    rw [sleepRun, List.foldl_append]
    rfl
  have hp : (sleepRun (sleepStep s SleepEvent.beginSleep)
      (ws.map SleepEvent.setInterval)).pending = some s.interval :=
    (sleepRun_setIntervals ws (sleepStep s SleepEvent.beginSleep)).1
  have hs : (sleepRun (sleepStep s SleepEvent.beginSleep)
      (ws.map SleepEvent.setInterval)).slept = s.slept :=
    (sleepRun_setIntervals ws (sleepStep s SleepEvent.beginSleep)).2
  have h1 : (sleepRun s (SleepEvent.beginSleep ::
      (ws.map SleepEvent.setInterval ++ [SleepEvent.endSleep]))).slept
        = s.slept ++ [s.interval] := by
    rw [hsplit, sleepStep_endSleep_slept _ _ hp, hs]
  refine ⟨h1, ?_⟩
  rw [sleep_once, h1]
  simp

lemma doubleToLL_intCast (k : Int) : doubleToLL (k : ℚ) = k := by
  simp [doubleToLL]

/-- C9: `getUnitSuffix` returns the table's suffix whenever the configured
scale corresponds exactly to a table entry (the key `(1/scale) *
1000000000` equals that entry's key), and the placeholder `"?"` whenever
the computed key matches no entry; it is a total function, so a
non-matching scale never fails the report. -/
theorem getUnitSuffix_exact_match_or_placeholder (scale : ℚ) :
    (∀ (k : Int) (suf : String), (k, suf) ∈ timeSuffixes →
      (1 / scale) * 1000000000 = (k : ℚ) → getUnitSuffix scale = suf)
    ∧ ((∀ k ∈ timeSuffixes.map Prod.fst, doubleToLL ((1 / scale) * 1000000000) ≠ k) →
      getUnitSuffix scale = "?") := by
  constructor
  · intro k suf hmem heq
    have hk : doubleToLL ((1 / scale) * 1000000000) = k := by
      rw [heq, doubleToLL_intCast]
    simp only [timeSuffixes, List.mem_cons, List.not_mem_nil, or_false,
      Prod.mk.injEq] at hmem
    rcases hmem with ⟨rfl, rfl⟩ | ⟨rfl, rfl⟩ | ⟨rfl, rfl⟩ | ⟨rfl, rfl⟩ |
      ⟨rfl, rfl⟩ | ⟨rfl, rfl⟩ | ⟨rfl, rfl⟩ <;>
      simp only [getUnitSuffix, hk] <;> rfl
  · intro h
    have hnone : timeSuffixes.find?
        (fun p => p.1 == doubleToLL ((1 / scale) * 1000000000)) = none := by
      apply List.find?_eq_none.mpr
      intro x hx hbe
      have hxe : x.1 = doubleToLL ((1 / scale) * 1000000000) := by
        simpa using hbe
      exact h x.1 (List.mem_map.mpr ⟨x, hx, rfl⟩) hxe.symm
    simp only [one_div] at hnone
    simp [getUnitSuffix, hnone]

/-- Witness for C9: the millisecond scale 1000 maps to suffix "ms", and the
half-second scale 2 (key 500000000, in no table entry) degrades to the
placeholder. -/
theorem getUnitSuffix_exact_match_or_placeholder_witness :
    getUnitSuffix 1000 = "ms" ∧ getUnitSuffix 2 = "?" := by
  constructor
  · exact (getUnitSuffix_exact_match_or_placeholder 1000).1 1000000 "ms"
      (by decide) (by norm_num)
  · apply (getUnitSuffix_exact_match_or_placeholder 2).2
    intro k hk
    have h5 : doubleToLL ((1 / (2 : ℚ)) * 1000000000) = 500000000 := by
      rw [show (1 / (2 : ℚ)) * 1000000000 = ((500000000 : Int) : ℚ) from by norm_num,
        doubleToLL_intCast]
    rw [h5]
    fin_cases hk <;> decide

end Profiler
